import Mathlib

/-!
Verification development for the `cyber_bro` repository (`src/ciis.py`),
a Streamlit dashboard that classifies social-media posts for sentiment and
toxicity and appends the results to a CSV history file.

Strings are modelled as `List Char` (`PyStr`).  Machine floats (TextBlob
polarity, toxic-bert scores, the literal thresholds `0.2` / `-0.2` / `0.5`)
are modelled as exact rationals `ℚ`.  The pandas CSV layer
(`pd.read_csv` / `DataFrame.to_csv`) is modelled at the level the program
exercises: minimal quoting on write (`QUOTE_MINIMAL`: a field is quoted iff
it contains a comma, a double quote, `\n` or `\r`, with embedded quotes
doubled), and on read: quote-aware field splitting, blank lines skipped,
default NA tokens and empty fields read back as missing values, and
numeric column inference (modelled for integer columns; float/bool
inference and duplicate-header mangling, which the program never exercises
on its three fixed distinct columns, are not modelled).
-/

abbrev PyStr := List Char

/-- Prepend `pre` to the first element of a list of fields (the first
field still being accumulated), used by the splitting functions. -/
def cons1 (pre : PyStr) : List PyStr → List PyStr
  | [] => [pre]
  | f :: fs => (pre ++ f) :: fs

/-- Python `str.split("\n")`: split on every newline, keeping empty pieces
(`"a\n\nb".split("\n") == ["a", "", "b"]`); also the record separator used
by the CSV layer. -/
def splitNL : PyStr → List PyStr
  | [] => [[]]
  | c :: r => if c = '\n' then [] :: splitNL r else cons1 [c] (splitNL r)

/-- Join lines with `'\n'` (inverse direction of `splitNL`). -/
def joinNL : List PyStr → PyStr
  | [] => []
  | [l] => l
  | l :: ls => l ++ '\n' :: joinNL ls

/-- Join CSV fields of one record with `','`. -/
def joinComma : List PyStr → PyStr
  | [] => []
  | [f] => f
  | f :: fs => f ++ ',' :: joinComma fs

/-- The characters Python's `str.strip()` removes by default. -/
def isPySpace (c : Char) : Bool :=
  c = ' ' || c = '\t' || c = '\n' || c = '\r' || c = '\x0b' || c = '\x0c'

/-- Python `str.strip()`: drop leading and trailing whitespace. -/
def pyStrip (s : PyStr) : PyStr :=
  ((s.dropWhile isPySpace).reverse.dropWhile isPySpace).reverse

/-! ### Decimal digits: rendering and parsing of integers -/

def digitChar (d : Nat) : Char := Char.ofNat (48 + d)

def charDigit (c : Char) : Nat := c.toNat - 48

/-- Fuel-driven decimal rendering of a natural number (most significant
digit first); `fuel > n` always suffices. -/
def natToStrAux : Nat → Nat → PyStr
  | 0, _ => []
  | fuel + 1, n =>
    if n < 10 then [digitChar n]
    else natToStrAux fuel (n / 10) ++ [digitChar (n % 10)]

def natToStr (n : Nat) : PyStr := natToStrAux (n + 1) n

/-- Decimal rendering of an integer, as `str(int)` / `to_csv` produce it. -/
def intToStr (n : Int) : PyStr :=
  if n < 0 then '-' :: natToStr n.natAbs else natToStr n.natAbs

def parseNatAux (acc : Nat) : PyStr → Nat
  | [] => acc
  | c :: r => parseNatAux (acc * 10 + charDigit c) r

def parseNatField (f : PyStr) : Nat := parseNatAux 0 f

/-- Parse an optionally `'-'`-signed decimal field. -/
def parseIntField : PyStr → Int
  | [] => 0
  | c :: ds => if c = '-' then -(parseNatField ds : Int) else parseNatField (c :: ds)

/-- Is the field an optionally `'-'`-signed nonempty run of digits?
(The integer shape pandas' column type inference recognises.) -/
def isIntFieldB : PyStr → Bool
  | [] => false
  | c :: ds =>
    if c = '-' then !ds.isEmpty && ds.all Char.isDigit
    else (c :: ds).all Char.isDigit

lemma charDigit_digitChar {d : Nat} (h : d < 10) : charDigit (digitChar d) = d := by
  interval_cases d <;> decide

lemma isDigit_digitChar {d : Nat} (h : d < 10) : (digitChar d).isDigit = true := by
  interval_cases d <;> decide

lemma natToStrAux_ne_nil {fuel n : Nat} (h : n < fuel) : natToStrAux fuel n ≠ [] := by
  cases fuel with
  | zero => omega
  | succ f =>
    by_cases h10 : n < 10 <;> simp [natToStrAux, h10]

lemma natToStrAux_all_digit : ∀ fuel n, n < fuel →
    (natToStrAux fuel n).all Char.isDigit = true := by
  intro fuel
  induction fuel with
  | zero => intro n h; omega
  | succ f ih =>
    intro n h
    by_cases h10 : n < 10
    · simp [natToStrAux, h10, isDigit_digitChar h10]
    · have hn : 0 < n := by omega
      have hdiv : n / 10 < n := Nat.div_lt_self hn (by omega)
      have hf : n / 10 < f := by omega
      have hih := ih _ hf
      simp only [natToStrAux, h10, if_false, List.all_append, List.all_cons,
        List.all_nil, Bool.and_true, hih, Bool.true_and]
      exact isDigit_digitChar (Nat.mod_lt n (by omega))

lemma parseNatAux_append (acc : Nat) (a b : PyStr) :
    parseNatAux acc (a ++ b) = parseNatAux (parseNatAux acc a) b := by
  induction a generalizing acc with
  | nil => rfl
  | cons c r ih => exact ih (acc * 10 + charDigit c)

lemma parseNatAux_natToStrAux : ∀ fuel n acc, n < fuel →
    parseNatAux acc (natToStrAux fuel n) =
      acc * 10 ^ (natToStrAux fuel n).length + n := by
  intro fuel
  induction fuel with
  | zero => intro n acc h; omega
  | succ f ih =>
    intro n acc h
    by_cases h10 : n < 10
    · have e : natToStrAux (f + 1) n = [digitChar n] := by
        rw [natToStrAux, if_pos h10]
      rw [e]
      have e2 : parseNatAux acc [digitChar n] = acc * 10 + charDigit (digitChar n) :=
        rfl
      rw [e2, charDigit_digitChar h10]
      simp
    · have hn : 0 < n := by omega
      have hdiv : n / 10 < n := Nat.div_lt_self hn (by omega)
      have hf : n / 10 < f := by omega
      have hx := ih (n / 10) acc hf
      have e : natToStrAux (f + 1) n
          = natToStrAux f (n / 10) ++ [digitChar (n % 10)] := by
        rw [natToStrAux, if_neg h10]
      rw [e, parseNatAux_append, hx]
      have e2 : parseNatAux
            (acc * 10 ^ (natToStrAux f (n / 10)).length + n / 10)
            [digitChar (n % 10)]
          = (acc * 10 ^ (natToStrAux f (n / 10)).length + n / 10) * 10
            + charDigit (digitChar (n % 10)) := rfl
      rw [e2, charDigit_digitChar (Nat.mod_lt n (show 0 < 10 by omega)),
        List.length_append, List.length_singleton]
      have h2 : (acc * 10 ^ (natToStrAux f (n / 10)).length + n / 10) * 10
          + n % 10
          = acc * 10 ^ ((natToStrAux f (n / 10)).length + 1)
            + (n / 10 * 10 + n % 10) := by ring
      rw [h2]
      omega

lemma parseNatField_natToStr (n : Nat) : parseNatField (natToStr n) = n := by
  have := parseNatAux_natToStrAux (n + 1) n 0 (by omega)
  simpa [parseNatField, natToStr] using this

lemma natToStr_all_digit (n : Nat) : (natToStr n).all Char.isDigit = true :=
  natToStrAux_all_digit (n + 1) n (by omega)

lemma natToStr_ne_nil (n : Nat) : natToStr n ≠ [] :=
  natToStrAux_ne_nil (by omega)

lemma isDigit_ne_dash {c : Char} (h : c.isDigit = true) : c ≠ '-' := by
  intro he; subst he; exact absurd h (by decide)

lemma isDigit_ne_nl {c : Char} (h : c.isDigit = true) : c ≠ '\n' := by
  intro he; subst he; exact absurd h (by decide)

lemma natToStr_head_digit (n : Nat) :
    ∃ c t, natToStr n = c :: t ∧ c.isDigit = true := by
  rcases hs : natToStr n with _ | ⟨c, t⟩
  · exact absurd hs (natToStr_ne_nil n)
  · refine ⟨c, t, rfl, ?_⟩
    have := natToStr_all_digit n
    rw [hs] at this
    simp [List.all_cons] at this
    exact this.1

lemma parseIntField_intToStr (n : Int) : parseIntField (intToStr n) = n := by
  by_cases hneg : n < 0
  · rw [intToStr, if_pos hneg]
    show parseIntField ('-' :: natToStr n.natAbs) = n
    rw [parseIntField, if_pos rfl, parseNatField_natToStr]
    omega
  · rw [intToStr, if_neg hneg]
    obtain ⟨c, t, hct, hd⟩ := natToStr_head_digit n.natAbs
    rw [hct, parseIntField, if_neg (isDigit_ne_dash hd), ← hct,
      parseNatField_natToStr]
    omega

lemma isIntFieldB_intToStr (n : Int) : isIntFieldB (intToStr n) = true := by
  by_cases hneg : n < 0
  · rw [intToStr, if_pos hneg]
    show isIntFieldB ('-' :: natToStr n.natAbs) = true
    rw [isIntFieldB, if_pos rfl]
    have h1 : (natToStr n.natAbs).isEmpty = false := by
      rcases hs : natToStr n.natAbs with _ | _
      · exact absurd hs (natToStr_ne_nil _)
      · rfl
    rw [h1, natToStr_all_digit]
    rfl
  · rw [intToStr, if_neg hneg]
    obtain ⟨c, t, hct, hd⟩ := natToStr_head_digit n.natAbs
    rw [hct, isIntFieldB, if_neg (isDigit_ne_dash hd), ← hct,
      natToStr_all_digit]

lemma intToStr_head (n : Int) :
    ∃ c t, intToStr n = c :: t ∧ (c = '-' ∨ c.isDigit = true) := by
  by_cases hneg : n < 0
  · exact ⟨'-', natToStr n.natAbs, by simp [intToStr, hneg], Or.inl rfl⟩
  · obtain ⟨c, t, hct, hd⟩ := natToStr_head_digit n.natAbs
    exact ⟨c, t, by simp [intToStr, hneg, hct], Or.inr hd⟩

/-! ### The CSV field codec (the part of `pd.read_csv` / `to_csv` the
program exercises): minimal quoting on write, quote-aware splitting on
read. -/

/-- Double every `'"'` (the escaping inside a quoted CSV field). -/
def escapeQ : PyStr → PyStr
  | [] => []
  | c :: r => if c = '"' then '"' :: '"' :: escapeQ r else c :: escapeQ r

/-- `QUOTE_MINIMAL`: a field is quoted iff it contains a delimiter, a
quote char, or a line-break character. -/
def needsQuote (f : PyStr) : Bool :=
  f.any (fun c => c = ',' || c = '"' || c = '\n' || c = '\r')

/-- Render one CSV field as `to_csv` does. -/
def encodeField (f : PyStr) : PyStr :=
  if needsQuote f then '"' :: escapeQ f ++ ['"'] else f

/-- Quote-aware splitting of one CSV record into fields; the `Bool` state
is "inside a quoted section". -/
def parseCSV : Bool → PyStr → List PyStr
  | _, [] => [[]]
  | false, c :: r =>
    if c = ',' then [] :: parseCSV false r
    else if c = '"' then parseCSV true r
    else cons1 [c] (parseCSV false r)
  | true, c :: r =>
    if c = '"' then
      match r with
      | [] => parseCSV false []
      | c2 :: r2 =>
        if c2 = '"' then cons1 ['"'] (parseCSV true r2)
        else parseCSV false (c2 :: r2)
    else cons1 [c] (parseCSV true r)

/-- Split one CSV record (one line of the file) into its fields. -/
def parseLine (l : PyStr) : List PyStr := parseCSV false l

/-- Render one CSV record from its fields. -/
def encRow (fields : List PyStr) : PyStr := joinComma (fields.map encodeField)

lemma cons1_ne_nil (p : PyStr) (L : List PyStr) : cons1 p L ≠ [] := by
  cases L <;> simp [cons1]

lemma cons1_cons1 (a b : PyStr) (L : List PyStr) :
    cons1 a (cons1 b L) = cons1 (a ++ b) L := by
  cases L <;> simp [cons1]

lemma cons1_nil_left (L : List PyStr) (h : L ≠ []) : cons1 [] L = L := by
  cases L with
  | nil => exact absurd rfl h
  | cons g gs => simp [cons1]

lemma pcsv_false_cons (c : Char) (r : PyStr) :
    parseCSV false (c :: r) =
      if c = ',' then [] :: parseCSV false r
      else if c = '"' then parseCSV true r
      else cons1 [c] (parseCSV false r) := by
  rw [parseCSV.eq_def]

lemma pcsv_true_cons (c : Char) (r : PyStr) (h : c ≠ '"') :
    parseCSV true (c :: r) = cons1 [c] (parseCSV true r) := by
  rw [parseCSV.eq_def]
  simp [h]

lemma pcsv_true_quote_nil : parseCSV true ['"'] = [[]] := by decide

lemma pcsv_true_quote_quote (r : PyStr) :
    parseCSV true ('"' :: '"' :: r) = cons1 ['"'] (parseCSV true r) := by
  rw [parseCSV.eq_def]
  simp

lemma pcsv_true_quote_other (c : Char) (r : PyStr) (h : c ≠ '"') :
    parseCSV true ('"' :: c :: r) = parseCSV false (c :: r) := by
  rw [parseCSV.eq_def]
  simp [h]

lemma parseCSV_ne_nil : ∀ b l, parseCSV b l ≠ [] := by
  intro b l
  induction b, l using parseCSV.induct
  all_goals try simp_all [parseCSV, cons1_ne_nil]
  all_goals
    (intro hh
     rw [pcsv_true_cons _ _ (by assumption)] at hh
     exact cons1_ne_nil _ _ hh)

/-- Run of an unquoted field: `parseCSV` accumulates it into the first
field of whatever follows. -/
lemma pcsv_run (f : PyStr) (hf : ∀ c ∈ f, c ≠ ',' ∧ c ≠ '"') (r : PyStr) :
    parseCSV false (f ++ r) = cons1 f (parseCSV false r) := by
  induction f with
  | nil => exact (cons1_nil_left _ (parseCSV_ne_nil false r)).symm
  | cons c f' ih =>
    have hc := hf c (List.mem_cons_self c f')
    have hf' : ∀ x ∈ f', x ≠ ',' ∧ x ≠ '"' := fun x hx =>
      hf x (List.mem_cons_of_mem c hx)
    rw [List.cons_append, pcsv_false_cons, if_neg hc.1, if_neg hc.2, ih hf',
      cons1_cons1]
    rfl

/-- Closing a quoted section whose contents have been escaped:
the parser recovers the original field. -/
lemma pcsv_quoted (f : PyStr) (r : PyStr) (hr : ∀ x, r ≠ '"' :: x) :
    parseCSV true (escapeQ f ++ '"' :: r) = cons1 f (parseCSV false r) := by
  induction f with
  | nil =>
    cases r with
    | nil => decide
    | cons c2 r2 =>
      have hc2 : c2 ≠ '"' := by
        intro he; exact hr r2 (by rw [he])
      show parseCSV true ('"' :: c2 :: r2) = cons1 [] (parseCSV false (c2 :: r2))
      rw [pcsv_true_quote_other c2 r2 hc2,
        cons1_nil_left _ (parseCSV_ne_nil false (c2 :: r2))]
  | cons c f' ih =>
    by_cases hc : c = '"'
    · subst hc
      show parseCSV true (escapeQ ('"' :: f') ++ '"' :: r) = _
      have he : escapeQ ('"' :: f') = '"' :: '"' :: escapeQ f' := by
        rw [escapeQ, if_pos rfl]
      rw [he, List.cons_append, List.cons_append, pcsv_true_quote_quote, ih,
        cons1_cons1]
      rfl
    · have he : escapeQ (c :: f') = c :: escapeQ f' := by
        rw [escapeQ, if_neg hc]
      rw [he, List.cons_append, pcsv_true_cons c _ hc, ih, cons1_cons1]
      rfl

/-- One encoded field followed by anything that does not begin with a
quote: the parser strips the encoding and accumulates the field. -/
lemma pcsv_encodeField (f : PyStr) (r : PyStr) (hr : ∀ x, r ≠ '"' :: x) :
    parseCSV false (encodeField f ++ r) = cons1 f (parseCSV false r) := by
  by_cases hq : needsQuote f
  · have he : encodeField f ++ r = '"' :: (escapeQ f ++ '"' :: r) := by
      rw [encodeField, if_pos hq]
      simp
    rw [he, pcsv_false_cons, if_neg (by decide : ('"' : Char) ≠ ','),
      if_pos rfl]
    exact pcsv_quoted f r hr
  · rw [encodeField, if_neg hq]
    have hf : ∀ c ∈ f, c ≠ ',' ∧ c ≠ '"' := by
      simp only [needsQuote] at hq
      simp only [List.any_eq_true, not_exists, not_and, Bool.or_eq_true,
        decide_eq_true_eq, not_or] at hq
      intro c hc
      exact ⟨(hq c hc).1.1.1, (hq c hc).1.1.2⟩
    exact pcsv_run f hf r

/-- Parsing an encoded record recovers its fields. -/
lemma parseLine_encRow : ∀ fields : List PyStr, fields ≠ [] →
    parseLine (encRow fields) = fields := by
  intro fields
  induction fields with
  | nil => intro h; exact absurd rfl h
  | cons f fs ih =>
    intro _
    cases fs with
    | nil =>
      show parseCSV false (encodeField f) = [f]
      have h1 := pcsv_encodeField f [] (by intro x h; cases h)
      rw [List.append_nil] at h1
      have h0 : parseCSV false ([] : PyStr) = [[]] := rfl
      rw [h1, h0]
      simp [cons1]
    | cons g t =>
      have he : encRow (f :: g :: t) = encodeField f ++ ',' :: encRow (g :: t) :=
        rfl
      show parseCSV false (encRow (f :: g :: t)) = f :: g :: t
      rw [he, pcsv_encodeField f _ (by intro x h; cases h),
        pcsv_false_cons, if_pos rfl]
      have hrec : parseCSV false (encRow (g :: t)) = g :: t := ih (by simp)
      rw [hrec]
      simp [cons1]

lemma mem_cons1 {f p : PyStr} {L : List PyStr} (h : f ∈ cons1 p L) :
    f = p ∨ (∃ g ∈ L, f = p ++ g) ∨ f ∈ L := by
  cases L with
  | nil =>
    simp [cons1] at h
    exact Or.inl h
  | cons g gs =>
    simp only [cons1, List.mem_cons] at h
    rcases h with h | h
    · exact Or.inr (Or.inl ⟨g, List.mem_cons_self g gs, h⟩)
    · exact Or.inr (Or.inr (List.mem_cons_of_mem g h))

/-- Every character of every parsed field occurs in the input record. -/
lemma parseCSV_chars : ∀ b l, ∀ f ∈ parseCSV b l, ∀ c ∈ f, c ∈ l := by
  intro b l
  induction b, l using parseCSV.induct with
  | case1 b =>
    intro f hf c hc
    simp [parseCSV] at hf
    subst hf
    cases hc
  | case2 r ih =>
    intro f hf c hc
    rw [pcsv_false_cons, if_pos rfl] at hf
    rcases List.mem_cons.mp hf with h | h
    · subst h; cases hc
    · exact List.mem_cons_of_mem _ (ih f h c hc)
  | case3 r hq ih =>
    intro f hf c hc
    rw [pcsv_false_cons, if_neg hq, if_pos rfl] at hf
    exact List.mem_cons_of_mem _ (ih f hf c hc)
  | case4 c0 r h1 h2 ih =>
    intro f hf c hc
    rw [pcsv_false_cons, if_neg h1, if_neg h2] at hf
    rcases mem_cons1 hf with h | ⟨g, hg, hfg⟩ | h
    · subst h
      simp only [List.mem_singleton] at hc
      subst hc
      exact List.mem_cons_self _ _
    · subst hfg
      rcases List.mem_append.mp hc with h | h
      · simp only [List.mem_singleton] at h
        subst h
        exact List.mem_cons_self _ _
      · exact List.mem_cons_of_mem _ (ih g hg c h)
    · exact List.mem_cons_of_mem _ (ih f h c hc)
  | case5 ih =>
    intro f hf c hc
    rw [pcsv_true_quote_nil] at hf
    simp at hf
    subst hf
    cases hc
  | case6 r2 ih =>
    intro f hf c hc
    rw [pcsv_true_quote_quote] at hf
    rcases mem_cons1 hf with h | ⟨g, hg, hfg⟩ | h
    · subst h
      simp only [List.mem_singleton] at hc
      subst hc
      exact List.mem_cons_self _ _
    · subst hfg
      rcases List.mem_append.mp hc with h | h
      · simp only [List.mem_singleton] at h
        subst h
        exact List.mem_cons_self _ _
      · exact List.mem_cons_of_mem _ (List.mem_cons_of_mem _ (ih g hg c h))
    · exact List.mem_cons_of_mem _ (List.mem_cons_of_mem _ (ih f h c hc))
  | case7 c2 r2 hq ih =>
    intro f hf c hc
    rw [pcsv_true_quote_other _ _ hq] at hf
    exact List.mem_cons_of_mem _ (ih f hf c hc)
  | case8 c0 r hq ih =>
    intro f hf c hc
    rw [pcsv_true_cons _ _ hq] at hf
    rcases mem_cons1 hf with h | ⟨g, hg, hfg⟩ | h
    · subst h
      simp only [List.mem_singleton] at hc
      subst hc
      exact List.mem_cons_self _ _
    · subst hfg
      rcases List.mem_append.mp hc with h | h
      · simp only [List.mem_singleton] at h
        subst h
        exact List.mem_cons_self _ _
      · exact List.mem_cons_of_mem _ (ih g hg c h)
    · exact List.mem_cons_of_mem _ (ih f h c hc)

/-! ### Line splitting lemmas -/

lemma splitNL_ne_nil (s : PyStr) : splitNL s ≠ [] := by
  induction s with
  | nil => simp [splitNL]
  | cons c r ih =>
    by_cases hc : c = '\n' <;> simp [splitNL, hc, cons1_ne_nil]

/-- Pieces produced by `splitNL` contain no newline. -/
lemma splitNL_chars : ∀ s, ∀ f ∈ splitNL s, '\n' ∉ f := by
  intro s
  induction s with
  | nil =>
    intro f hf
    simp [splitNL] at hf
    subst hf
    simp
  | cons c r ih =>
    intro f hf
    by_cases hc : c = '\n'
    · subst hc
      rw [splitNL, if_pos rfl] at hf
      rcases List.mem_cons.mp hf with h | h
      · subst h; simp
      · exact ih f h
    · rw [splitNL, if_neg hc] at hf
      rcases mem_cons1 hf with h | ⟨g, hg, hfg⟩ | h
      · subst h
        simp [hc]
        intro he
        exact hc he.symm
      · subst hfg
        intro hmem
        rcases List.mem_append.mp hmem with h | h
        · simp at h
          exact hc h.symm
        · exact ih g hg h
      · exact ih f h

lemma splitNL_append_nl (l : PyStr) (hl : '\n' ∉ l) (rest : PyStr) :
    splitNL (l ++ '\n' :: rest) = l :: splitNL rest := by
  induction l with
  | nil =>
    rw [List.nil_append, splitNL, if_pos rfl]
  | cons c l' ih =>
    have hc : c ≠ '\n' := by
      intro he; exact hl (he ▸ List.mem_cons_self c l')
    have hl' : '\n' ∉ l' := fun hm => hl (List.mem_cons_of_mem c hm)
    rw [List.cons_append, splitNL, if_neg hc, ih hl']
    simp [cons1]

/-- Splitting the newline-joined lines (with a final terminating newline,
as `to_csv` writes) recovers the lines plus one trailing empty piece. -/
lemma splitNL_joinNL : ∀ L : List PyStr, L ≠ [] → (∀ l ∈ L, '\n' ∉ l) →
    splitNL (joinNL L ++ ['\n']) = L ++ [[]] := by
  intro L
  induction L with
  | nil => intro h; exact absurd rfl h
  | cons l L' ih =>
    intro _ hnl
    cases L' with
    | nil =>
      show splitNL (l ++ '\n' :: []) = [l, []]
      rw [splitNL_append_nl l (hnl l (List.mem_cons_self l [])) []]
      rfl
    | cons m M =>
      have hj : joinNL (l :: m :: M) = l ++ '\n' :: joinNL (m :: M) := rfl
      rw [hj, List.append_assoc, List.cons_append,
        splitNL_append_nl l (hnl l (List.mem_cons_self l _)) _,
        ih (by simp) (fun x hx => hnl x (List.mem_cons_of_mem l hx))]
      rfl

/-! ### Cells, missing values and column type inference -/

/-- A value of a loaded table cell: missing (`NaN`), an inferred integer,
or a plain string. -/
inductive Cell where
  | na : Cell
  | int (n : Int) : Cell
  | str (s : PyStr) : Cell
deriving DecidableEq

/-- The default `read_csv` NA markers (the empty field is handled
separately). -/
def naTokens : List PyStr :=
  ["#N/A".data, "#N/A N/A".data, "#NA".data, "-1.#IND".data,
   "-1.#QNAN".data, "-NaN".data, "-nan".data, "1.#IND".data,
   "1.#QNAN".data, "<NA>".data, "N/A".data, "NA".data, "NULL".data,
   "NaN".data, "None".data, "n/a".data, "nan".data, "null".data]

/-- Does `read_csv` read this raw field back as a missing value? -/
def isNaFieldB (f : PyStr) : Bool := f.isEmpty || decide (f ∈ naTokens)

/-- Is the field compatible with an integer column (missing or an
integer literal)? -/
def naOrIntB (f : PyStr) : Bool := isNaFieldB f || isIntFieldB f

/-- Interpret one raw field of a column whose numeric flag is `numeric`. -/
def mkCell (numeric : Bool) (f : PyStr) : Cell :=
  if isNaFieldB f then .na
  else if numeric then .int (parseIntField f)
  else .str f

/-- How `to_csv` renders a cell back into a raw field. -/
def encodeCell : Cell → PyStr
  | .na => []
  | .int n => intToStr n
  | .str s => s

/-- Interpret the fields of one row, `numeric` giving each column's
numeric flag, `j` the index of the first field. -/
def inferRowAux (numeric : Nat → Bool) : Nat → List PyStr → List Cell
  | _, [] => []
  | j, f :: fs => mkCell (numeric j) f :: inferRowAux numeric (j + 1) fs

/-- Column `j` is inferred numeric iff every row's field `j` is an
integer literal or a missing value. -/
def colNumericB (raws : List (List PyStr)) (j : Nat) : Bool :=
  raws.all (fun r => naOrIntB (r.getD j []))

/-- Interpret all data rows, inferring column types across the rows. -/
def inferRows (raws : List (List PyStr)) : List (List Cell) :=
  raws.map (inferRowAux (colNumericB raws) 0)

/-- A loaded delimited table: a header of column names and the data rows. -/
structure Table where
  header : List PyStr
  rows : List (List Cell)
deriving DecidableEq

/-- `DataFrame.to_csv(index=False)`: header line, one line per row,
terminating newline. -/
def encodeTable (t : Table) : PyStr :=
  joinNL (encRow t.header :: t.rows.map (fun r => encRow (r.map encodeCell)))
    ++ ['\n']

/-- `pd.read_csv`: split records, skip blank lines, first record is the
header, remaining records are type-inferred data rows. -/
def decodeTable (s : PyStr) : Table :=
  match (splitNL s).filter (fun l => !l.isEmpty) with
  | [] => ⟨[], []⟩
  | h :: rest => ⟨parseLine h, inferRows (rest.map parseLine)⟩

/-! ### NA tokens versus rendered integers -/

lemma natoken_nondigit :
    ∀ t ∈ naTokens, (t.dropWhile (fun c => c = '-')).any
      (fun c => !c.isDigit) = true := by
  decide

lemma any_not_digit_false_of_all {l : PyStr} (h : l.all Char.isDigit = true) :
    l.any (fun c => !c.isDigit) = false := by
  rw [List.any_eq_false]
  intro c hc
  have := List.all_eq_true.mp h c hc
  simp [this]

lemma dropWhile_dash_natToStr (n : Nat) :
    (natToStr n).dropWhile (fun c => c = '-') = natToStr n := by
  obtain ⟨c, t, hct, hd⟩ := natToStr_head_digit n
  rw [hct, List.dropWhile_cons, if_neg]
  simp only [decide_eq_true_eq]
  exact fun he => isDigit_ne_dash hd he

lemma intToStr_not_natoken (n : Int) : intToStr n ∉ naTokens := by
  intro hmem
  have hnd := natoken_nondigit _ hmem
  by_cases hneg : n < 0
  · rw [intToStr, if_pos hneg] at hnd
    rw [List.dropWhile_cons, if_pos (by simp)] at hnd
    rw [dropWhile_dash_natToStr] at hnd
    rw [any_not_digit_false_of_all (natToStr_all_digit _)] at hnd
    cases hnd
  · rw [intToStr, if_neg hneg, dropWhile_dash_natToStr] at hnd
    rw [any_not_digit_false_of_all (natToStr_all_digit _)] at hnd
    cases hnd

lemma intToStr_ne_nil (n : Int) : intToStr n ≠ [] := by
  rw [intToStr]
  by_cases hneg : n < 0
  · rw [if_pos hneg]; simp
  · rw [if_neg hneg]; exact natToStr_ne_nil _

lemma isNaFieldB_intToStr (n : Int) : isNaFieldB (intToStr n) = false := by
  rw [isNaFieldB]
  have h1 : (intToStr n).isEmpty = false := by
    rcases hs : intToStr n with _ | _
    · exact absurd hs (intToStr_ne_nil n)
    · rfl
  rw [h1]
  simp only [Bool.false_or, decide_eq_false_iff_not]
  exact intToStr_not_natoken n

lemma isNaFieldB_nil : isNaFieldB [] = true := by decide

lemma naOrIntB_nil : naOrIntB [] = true := by decide

/-! ### Re-reading what `to_csv` wrote: cell-level idempotence -/

lemma naOrIntB_false_parts {f : PyStr} (h : naOrIntB f = false) :
    isNaFieldB f = false ∧ isIntFieldB f = false := by
  rw [naOrIntB, Bool.or_eq_false_iff] at h
  exact h

lemma naOrIntB_enc (b : Bool) (f : PyStr) (hb : b = true → naOrIntB f = true) :
    naOrIntB (encodeCell (mkCell b f)) = naOrIntB f := by
  by_cases hna : isNaFieldB f = true
  · have h1 : mkCell b f = .na := by rw [mkCell, if_pos hna]
    rw [h1]
    show naOrIntB [] = naOrIntB f
    rw [naOrIntB_nil, naOrIntB, hna]
    rfl
  · rw [Bool.not_eq_true] at hna
    cases b with
    | false =>
      have h1 : mkCell false f = .str f := by
        rw [mkCell, if_neg (by simp [hna]), if_neg (by simp)]
      rw [h1]
      rfl
    | true =>
      have hint : isIntFieldB f = true := by
        have := hb rfl
        rw [naOrIntB, hna, Bool.false_or] at this
        exact this
      have h1 : mkCell true f = .int (parseIntField f) := by
        rw [mkCell, if_neg (by simp [hna]), if_pos rfl]
      rw [h1]
      show naOrIntB (intToStr (parseIntField f)) = naOrIntB f
      rw [naOrIntB, isNaFieldB_intToStr, isIntFieldB_intToStr,
        naOrIntB, hna, hint]

lemma mkCell_enc_idem (b : Bool) (f : PyStr)
    (hb : b = true → naOrIntB f = true) :
    mkCell b (encodeCell (mkCell b f)) = mkCell b f := by
  by_cases hna : isNaFieldB f = true
  · have h1 : mkCell b f = .na := by rw [mkCell, if_pos hna]
    rw [h1]
    show mkCell b [] = Cell.na
    rw [mkCell, if_pos isNaFieldB_nil]
  · rw [Bool.not_eq_true] at hna
    cases b with
    | false =>
      have h1 : mkCell false f = .str f := by
        rw [mkCell, if_neg (by simp [hna]), if_neg (by simp)]
      rw [h1]
      show mkCell false f = Cell.str f
      exact h1
    | true =>
      have h1 : mkCell true f = .int (parseIntField f) := by
        rw [mkCell, if_neg (by simp [hna]), if_pos rfl]
      rw [h1]
      show mkCell true (intToStr (parseIntField f)) = Cell.int (parseIntField f)
      rw [mkCell, if_neg (by simp [isNaFieldB_intToStr]), if_pos rfl,
        parseIntField_intToStr]

lemma getD_inferRow_enc (num : Nat → Bool) : ∀ (r : List PyStr) (i j : Nat),
    ((inferRowAux num i r).map encodeCell).getD j []
      = if j < r.length then encodeCell (mkCell (num (i + j)) (r.getD j []))
        else [] := by
  intro r
  induction r with
  | nil => intro i j; simp [inferRowAux]
  | cons f fs ih =>
    intro i j
    cases j with
    | zero => simp [inferRowAux]
    | succ k =>
      show ((mkCell (num i) f :: inferRowAux num (i + 1) fs).map
          encodeCell).getD (k + 1) [] = _
      rw [List.map_cons, List.getD_cons_succ, ih (i + 1) k]
      have harith : (i + 1) + k = i + (k + 1) := by omega
      rw [harith]
      by_cases hk : k < fs.length
      · rw [if_pos hk, if_pos (by simpa using Nat.succ_lt_succ hk),
          List.getD_cons_succ]
      · rw [if_neg hk,
          if_neg (by simpa using fun h => hk (Nat.lt_of_succ_lt_succ h))]

lemma inferRowAux_enc_idem (num : Nat → Bool) : ∀ (r : List PyStr) (i : Nat),
    (∀ k, num (i + k) = true → naOrIntB (r.getD k []) = true) →
    inferRowAux num i ((inferRowAux num i r).map encodeCell)
      = inferRowAux num i r := by
  intro r
  induction r with
  | nil => intro i _; rfl
  | cons f fs ih =>
    intro i h
    have h0 : num i = true → naOrIntB f = true := by
      intro hi
      have := h 0 (by rwa [Nat.add_zero])
      rwa [List.getD_cons_zero] at this
    have htail : ∀ k, num ((i + 1) + k) = true → naOrIntB (fs.getD k []) = true := by
      intro k hk
      have harith : i + (k + 1) = (i + 1) + k := by omega
      have := h (k + 1) (by rwa [harith])
      rwa [List.getD_cons_succ] at this
    show inferRowAux num i
        (encodeCell (mkCell (num i) f) :: (inferRowAux num (i + 1) fs).map encodeCell)
      = mkCell (num i) f :: inferRowAux num (i + 1) fs
    rw [inferRowAux, mkCell_enc_idem (num i) f h0, ih (i + 1) htail]

lemma colNumericB_stable (raws : List (List PyStr)) (j : Nat) :
    colNumericB ((inferRows raws).map (List.map encodeCell)) j
      = colNumericB raws j := by
  rw [inferRows, List.map_map]
  rw [colNumericB, colNumericB, List.all_map]
  by_cases hcol : raws.all (fun r => naOrIntB (r.getD j [])) = true
  · rw [hcol, List.all_eq_true]
    intro r hr
    show naOrIntB (((inferRowAux (colNumericB raws) 0 r).map encodeCell).getD j []) = true
    rw [getD_inferRow_enc]
    by_cases hlen : j < r.length
    · rw [if_pos hlen, Nat.zero_add]
      have hf : naOrIntB (r.getD j []) = true := List.all_eq_true.mp hcol r hr
      have hb : colNumericB raws j = true → naOrIntB (r.getD j []) = true :=
        fun _ => hf
      rw [naOrIntB_enc _ _ hb, hf]
    · rw [if_neg hlen, naOrIntB_nil]
  · rw [Bool.not_eq_true] at hcol
    rw [hcol, List.all_eq_false]
    rw [List.all_eq_false] at hcol
    obtain ⟨r, hr, hf⟩ := hcol
    refine ⟨r, hr, ?_⟩
    rw [Bool.not_eq_true] at hf ⊢
    show naOrIntB (((inferRowAux (colNumericB raws) 0 r).map encodeCell).getD j []) = false
    rw [getD_inferRow_enc]
    have hlen : j < r.length := by
      by_contra hge
      rw [List.getD_eq_default _ _ (by omega)] at hf
      rw [naOrIntB_nil] at hf
      cases hf
    rw [if_pos hlen, Nat.zero_add]
    have hnum : colNumericB raws j = false := by
      rw [colNumericB, List.all_eq_false]
      exact ⟨r, hr, by rw [hf]; simp⟩
    rw [hnum]
    have hna : isNaFieldB (r.getD j []) = false := (naOrIntB_false_parts hf).1
    have h1 : mkCell false (r.getD j []) = .str (r.getD j []) := by
      rw [mkCell, if_neg (by simp only [hna]; simp), if_neg (by simp)]
    rw [h1]
    exact hf

lemma inferRows_enc_idem (raws : List (List PyStr)) :
    inferRows ((inferRows raws).map (List.map encodeCell)) = inferRows raws := by
  have hstab : colNumericB ((inferRows raws).map (List.map encodeCell))
      = colNumericB raws := funext (colNumericB_stable raws)
  conv_lhs => rw [inferRows]
  rw [hstab]
  simp only [inferRows, List.map_map]
  refine List.map_congr_left ?_
  intro r hr
  show inferRowAux (colNumericB raws) 0
      ((inferRowAux (colNumericB raws) 0 r).map encodeCell)
    = inferRowAux (colNumericB raws) 0 r
  refine inferRowAux_enc_idem _ r 0 ?_
  intro k hk
  rw [Nat.zero_add] at hk
  rw [colNumericB, List.all_eq_true] at hk
  exact hk r hr

/-! ### Newline and nonemptiness facts about encoded records -/

lemma mem_escapeQ {c : Char} : ∀ {f : PyStr}, c ∈ escapeQ f → c ∈ f ∨ c = '"' := by
  intro f
  induction f with
  | nil => intro h; cases h
  | cons d r ih =>
    intro h
    by_cases hd : d = '"'
    · subst hd
      rw [escapeQ, if_pos rfl] at h
      rcases List.mem_cons.mp h with h | h
      · exact Or.inr h
      · rcases List.mem_cons.mp h with h | h
        · exact Or.inr h
        · rcases ih h with h | h
          · exact Or.inl (List.mem_cons_of_mem _ h)
          · exact Or.inr h
    · rw [escapeQ, if_neg hd] at h
      rcases List.mem_cons.mp h with h | h
      · exact Or.inl (h ▸ List.mem_cons_self _ _)
      · rcases ih h with h | h
        · exact Or.inl (List.mem_cons_of_mem _ h)
        · exact Or.inr h

lemma noNL_encodeField {f : PyStr} (h : '\n' ∉ f) : '\n' ∉ encodeField f := by
  rw [encodeField]
  by_cases hq : needsQuote f
  · rw [if_pos hq]
    intro hmem
    rcases List.mem_cons.mp hmem with hm | hm
    · cases hm
    · rcases List.mem_append.mp hm with hm | hm
      · rcases mem_escapeQ hm with hm | hm
        · exact h hm
        · cases hm
      · simp at hm
  · rw [if_neg hq]
    exact h

lemma mem_joinComma {c : Char} : ∀ {L : List PyStr},
    c ∈ joinComma L → (∃ l ∈ L, c ∈ l) ∨ c = ',' := by
  intro L
  induction L with
  | nil => intro h; cases h
  | cons f fs ih =>
    intro h
    cases fs with
    | nil =>
      exact Or.inl ⟨f, List.mem_cons_self f [], h⟩
    | cons g t =>
      have he : joinComma (f :: g :: t) = f ++ ',' :: joinComma (g :: t) := rfl
      rw [he] at h
      rcases List.mem_append.mp h with h | h
      · exact Or.inl ⟨f, List.mem_cons_self _ _, h⟩
      · rcases List.mem_cons.mp h with h | h
        · exact Or.inr h
        · rcases ih h with ⟨l, hl, hcl⟩ | h
          · exact Or.inl ⟨l, List.mem_cons_of_mem _ hl, hcl⟩
          · exact Or.inr h

lemma noNL_encRow {fields : List PyStr} (h : ∀ f ∈ fields, '\n' ∉ f) :
    '\n' ∉ encRow fields := by
  intro hmem
  rcases mem_joinComma hmem with ⟨l, hl, hcl⟩ | hm
  · obtain ⟨f, hf, rfl⟩ := List.mem_map.mp hl
    exact noNL_encodeField (h f hf) hcl
  · cases hm

lemma encRow_ne_nil2 {fields : List PyStr} (h : 2 ≤ fields.length) :
    encRow fields ≠ [] := by
  match fields, h with
  | f :: g :: t, _ =>
    have he : encRow (f :: g :: t)
        = encodeField f ++ ',' :: joinComma (encodeField g :: t.map encodeField) :=
      rfl
    rw [he]
    simp

lemma noNL_intToStr (n : Int) : '\n' ∉ intToStr n := by
  intro hmem
  rw [intToStr] at hmem
  by_cases hneg : n < 0
  · rw [if_pos hneg] at hmem
    rcases List.mem_cons.mp hmem with h | h
    · cases h
    · exact isDigit_ne_nl (List.all_eq_true.mp (natToStr_all_digit _) _ h) rfl
  · rw [if_neg hneg] at hmem
    exact isDigit_ne_nl (List.all_eq_true.mp (natToStr_all_digit _) _ hmem) rfl

lemma noNL_encodeCell_mkCell {f : PyStr} (b : Bool) (h : '\n' ∉ f) :
    '\n' ∉ encodeCell (mkCell b f) := by
  rw [mkCell]
  by_cases hna : isNaFieldB f = true
  · rw [if_pos hna]
    intro hm
    cases hm
  · rw [if_neg hna]
    cases b with
    | true =>
      rw [if_pos rfl]
      exact noNL_intToStr _
    | false =>
      rw [if_neg (by simp)]
      exact h

lemma mem_inferRowAux {cell : Cell} (num : Nat → Bool) :
    ∀ (r : List PyStr) (i : Nat), cell ∈ inferRowAux num i r →
    ∃ b f, f ∈ r ∧ cell = mkCell b f := by
  intro r
  induction r with
  | nil => intro i h; cases h
  | cons f fs ih =>
    intro i h
    rcases List.mem_cons.mp h with h | h
    · exact ⟨num i, f, List.mem_cons_self f fs, h⟩
    · obtain ⟨b, g, hg, he⟩ := ih (i + 1) h
      exact ⟨b, g, List.mem_cons_of_mem f hg, he⟩

lemma length_inferRowAux (num : Nat → Bool) :
    ∀ (r : List PyStr) (i : Nat), (inferRowAux num i r).length = r.length := by
  intro r
  induction r with
  | nil => intro i; rfl
  | cons f fs ih =>
    intro i
    show (mkCell (num i) f :: inferRowAux num (i + 1) fs).length = fs.length + 1
    rw [List.length_cons, ih (i + 1)]

/-! ### The History Store (`HISTORY_FILE`, `load_history`, `save_history`).
The backing store is modelled as `Option PyStr`: `none` when
`os.path.exists(HISTORY_FILE)` is false, otherwise the file's text. -/

/-- The three fixed column names of the history table. -/
def stdHeader : List PyStr := ["Post".data, "Sentiment".data, "Toxicity".data]

/-- `load_history`: read the CSV file if it exists, otherwise an empty
`DataFrame(columns=["Post", "Sentiment", "Toxicity"])`. -/
def loadHistory : Option PyStr → Table
  | none => ⟨stdHeader, []⟩
  | some s => decodeTable s

/-- `save_history(df_new)`: load the existing table, concatenate the new
batch after it (`pd.concat([df_history, df_new], ignore_index=True)`,
modelled for frames sharing the same columns — the only case the program
produces), write the combined table back, and return it.  The result pair
is (new store contents, returned DataFrame). -/
def saveHistory (store : Option PyStr) (dfNew : Table) : Option PyStr × Table :=
  let histDf := loadHistory store
  let dfAll : Table := ⟨histDf.header, histDf.rows ++ dfNew.rows⟩
  (some (encodeTable dfAll), dfAll)

/-- A table with the shape a history table always has: exactly the three
fixed columns, every row of width three. -/
def HistoryShaped (t : Table) : Prop :=
  t.header = stdHeader ∧ ∀ r ∈ t.rows, r.length = 3

instance (t : Table) : Decidable (HistoryShaped t) := by
  rw [HistoryShaped]
  infer_instance

lemma decodeTable_of_filter_nil {s : PyStr}
    (h : (splitNL s).filter (fun l => !l.isEmpty) = []) :
    decodeTable s = ⟨[], []⟩ := by
  simp only [decodeTable, h]

lemma decodeTable_of_filter_cons {s : PyStr} {l0 : PyStr} {ls : List PyStr}
    (h : (splitNL s).filter (fun l => !l.isEmpty) = l0 :: ls) :
    decodeTable s = ⟨parseLine l0, inferRows (ls.map parseLine)⟩ := by
  simp only [decodeTable, h]

/-- Re-reading the file written for a loaded history-shaped table gives
the very same table: the `to_csv` / `read_csv` round trip is the identity
on loaded history tables. -/
lemma decode_encode_decode {s : PyStr} (hs : HistoryShaped (decodeTable s)) :
    decodeTable (encodeTable (decodeTable s)) = decodeTable s := by
  rcases hlines : (splitNL s).filter (fun l => !l.isEmpty) with _ | ⟨l0, ls⟩
  · exfalso
    rw [decodeTable_of_filter_nil hlines] at hs
    have := hs.1
    simp [stdHeader] at this
  · have hdec := decodeTable_of_filter_cons hlines
    rw [hdec] at hs ⊢
    set hdr := parseLine l0 with hhdr
    set raws := ls.map parseLine with hraws
    set cells := inferRows raws with hcells
    -- no-newline facts
    have hl0 : '\n' ∉ l0 := by
      have hmem : l0 ∈ (splitNL s).filter (fun l => !l.isEmpty) := by
        rw [hlines]
        exact List.mem_cons_self _ _
      exact splitNL_chars s l0 (List.mem_of_mem_filter hmem)
    have hls : ∀ l ∈ ls, '\n' ∉ l := by
      intro l hl
      have hmem : l ∈ (splitNL s).filter (fun x => !x.isEmpty) := by
        rw [hlines]
        exact List.mem_cons_of_mem _ hl
      exact splitNL_chars s l (List.mem_of_mem_filter hmem)
    have hhdrNL : ∀ f ∈ hdr, '\n' ∉ f := by
      intro f hf hmem
      exact hl0 (parseCSV_chars false l0 f hf '\n' hmem)
    have hcellNL : ∀ cr ∈ cells, ∀ f ∈ cr.map encodeCell, '\n' ∉ f := by
      intro cr hcr f hf
      obtain ⟨cell, hcell, rfl⟩ := List.mem_map.mp hf
      rw [hcells, inferRows] at hcr
      obtain ⟨r, hr, rfl⟩ := List.mem_map.mp hcr
      obtain ⟨b, g, hg, rfl⟩ := mem_inferRowAux _ r 0 hcell
      refine noNL_encodeCell_mkCell b ?_
      intro hmem
      obtain ⟨l, hl, rfl⟩ := List.mem_map.mp (hraws ▸ hr)
      exact hls l hl (parseCSV_chars false l g hg '\n' hmem)
    -- shape facts
    have hhdr3 : hdr = stdHeader := hs.1
    have hcell3 : ∀ cr ∈ cells, cr.length = 3 := hs.2
    -- the encoded lines
    set L := encRow hdr :: cells.map (fun r => encRow (r.map encodeCell))
      with hL
    have hLnoNL : ∀ l ∈ L, '\n' ∉ l := by
      intro l hl
      rw [hL] at hl
      rcases List.mem_cons.mp hl with h | h
      · exact h ▸ noNL_encRow hhdrNL
      · obtain ⟨cr, hcr, rfl⟩ := List.mem_map.mp h
        exact noNL_encRow (hcellNL cr hcr)
    have hLne : ∀ l ∈ L, (!l.isEmpty) = true := by
      intro l hl
      rw [hL] at hl
      have hne : l ≠ [] := by
        rcases List.mem_cons.mp hl with h | h
        · subst h
          refine encRow_ne_nil2 ?_
          rw [hhdr3]
          decide
        · obtain ⟨cr, hcr, rfl⟩ := List.mem_map.mp h
          refine encRow_ne_nil2 ?_
          rw [List.length_map, hcell3 cr hcr]
          omega
      rcases l with _ | _
      · exact absurd rfl hne
      · rfl
    -- decode the encoding
    have hsplit : splitNL (encodeTable ⟨hdr, cells⟩) = L ++ [[]] := by
      show splitNL (joinNL L ++ ['\n']) = L ++ [[]]
      exact splitNL_joinNL L (by rw [hL]; simp) hLnoNL
    have hfilter : (splitNL (encodeTable ⟨hdr, cells⟩)).filter
        (fun l => !l.isEmpty) = L := by
      rw [hsplit, List.filter_append, List.filter_eq_self.mpr hLne]
      simp
    rw [hL] at hfilter
    rw [decodeTable_of_filter_cons hfilter]
    -- header round trip
    have hhdrRT : parseLine (encRow hdr) = hdr := by
      refine parseLine_encRow hdr ?_
      rw [hhdr3]
      decide
    -- rows round trip
    have hrowsRT : (cells.map (fun r => encRow (r.map encodeCell))).map parseLine
        = cells.map (fun r => r.map encodeCell) := by
      rw [List.map_map]
      refine List.map_congr_left ?_
      intro cr hcr
      show parseLine (encRow (cr.map encodeCell)) = cr.map encodeCell
      refine parseLine_encRow _ ?_
      intro he
      have : (cr.map encodeCell).length = 3 := by
        rw [List.length_map, hcell3 cr hcr]
      rw [he] at this
      simp at this
    rw [hhdrRT, hrowsRT]
    show Table.mk hdr (inferRows (cells.map (List.map encodeCell)))
      = Table.mk hdr cells
    rw [hcells, inferRows_enc_idem]

/-! ### The analysis loop (sentiment, toxicity, aggregate counts) -/

/-- The sentiment branch: `TextBlob(post).sentiment.polarity` compared
against the thresholds `0.2` / `-0.2`; the resulting label strings. -/
def sentimentLabel (p : ℚ) : PyStr :=
  if p > 0.2 then "Positive".data
  else if p < -0.2 then "Negative".data
  else "Neutral".data

/-- `sentiment_counts`, the per-batch sentiment aggregate. -/
structure SentCounts where
  positive : Nat
  negative : Nat
  neutral : Nat
deriving DecidableEq

/-- `toxic_counts`, the per-batch toxicity aggregate. -/
structure ToxCounts where
  toxic : Nat
  safe : Nat
deriving DecidableEq

/-- The `sentiment_counts[...] += 1` update, same branch condition as the
label. -/
def bumpSent (sc : SentCounts) (p : ℚ) : SentCounts :=
  if p > 0.2 then { sc with positive := sc.positive + 1 }
  else if p < -0.2 then { sc with negative := sc.negative + 1 }
  else { sc with neutral := sc.neutral + 1 }

/-- Python `f"{x:.2f}"`: the score rendered with two digits after the
point.  The number of hundredths is `⌊q * 100 + 1/2⌋`, written on the
exact fraction as `(200 * num + den).fdiv (2 * den)` (rounding to the
nearest hundredth; the exact tie behaviour of binary floats is
immaterial to the claims). -/
def format2 (q : ℚ) : PyStr :=
  let n : Int := (200 * q.num + (q.den : Int)).fdiv (2 * (q.den : Int))
  let m := n.natAbs
  (if n < 0 then ['-'] else []) ++ natToStr (m / 100)
    ++ '.' :: [digitChar (m % 100 / 10), digitChar (m % 100 % 10)]

/-- The toxicity branch: threshold `0.5` on the extracted toxic score,
and the f-string labels embedding the score to two decimals. -/
def toxicityLabel (s : ℚ) : PyStr :=
  if s > 0.5 then "⚠️ Toxic (".data ++ format2 s ++ ")".data
  else "✅ Safe (".data ++ format2 s ++ ")".data

/-- The `toxic_counts[...] += 1` update, same branch condition as the
label. -/
def bumpTox (tc : ToxCounts) (s : ℚ) : ToxCounts :=
  if s > 0.5 then { tc with toxic := tc.toxic + 1 }
  else { tc with safe := tc.safe + 1 }

/-- One Post Record of the results batch:
`(post, sentiment_label, toxicity)`. -/
abbrev Row := PyStr × PyStr × PyStr

/-- The analysis loop over the posts, in input order.  `pol` is the
sentiment scorer (total), `tox` the extraction
`[p for p in predictions if p["label"] == "toxic"][0]["score"]`, which is
`none` when the backend fails or the "toxic" label is absent — in that
case the whole run fails (the exception aborts the loop before anything
is saved). -/
def analyzePosts (pol : PyStr → ℚ) (tox : PyStr → Option ℚ) :
    List PyStr → Option (List Row × SentCounts × ToxCounts)
  | [] => some ([], ⟨0, 0, 0⟩, ⟨0, 0⟩)
  | p :: ps =>
    match tox p with
    | none => none
    | some s =>
      match analyzePosts pol tox ps with
      | none => none
      | some (rows, sc, tc) =>
        some ((p, sentimentLabel (pol p), toxicityLabel s) :: rows,
          bumpSent sc (pol p), bumpTox tc s)

/-- Free-text input handling:
`posts = user_input.strip().split("\n")` when `user_input.strip()` is
truthy, otherwise no posts (a warning is shown instead). -/
def parsePosts (input : PyStr) : List PyStr :=
  if pyStrip input = [] then [] else splitNL (pyStrip input)

/-- What one run of the Analyzer tab observably produces besides the
store. -/
inductive Outcome where
  | emptyWarning : Outcome
  | missingPostColumn : Outcome
  | modelFailure : Outcome
  | noPosts : Outcome
  | analyzed (rows : List Row) (sc : SentCounts) (tc : ToxCounts) : Outcome
deriving DecidableEq

/-- `results_df = pd.DataFrame(results, columns=["Post", "Sentiment",
"Toxicity"])`. -/
def rowsTable (rows : List Row) : Table :=
  ⟨stdHeader, rows.map (fun r => [Cell.str r.1, Cell.str r.2.1, Cell.str r.2.2])⟩

/-- The free-text path of the Analyzer tab: parse posts, warn when there
are none, otherwise run the loop and save the batch; a classifier
failure aborts the run with nothing saved. -/
def runTextFlow (store : Option PyStr) (pol : PyStr → ℚ)
    (tox : PyStr → Option ℚ) (input : PyStr) : Option PyStr × Outcome :=
  if parsePosts input = [] then (store, .emptyWarning)
  else
    match analyzePosts pol tox (parsePosts input) with
    | none => (store, .modelFailure)
    | some (rows, sc, tc) =>
      ((saveHistory store (rowsTable rows)).1, .analyzed rows sc tc)

/-- `df["post"].dropna().tolist()`: the `post` column with missing
entries removed. -/
def postColumn (df : Table) : List Cell :=
  let j := df.header.indexOf "post".data
  df.rows.map (fun r => r.getD j Cell.na)

/-- The CSV-upload path of the Analyzer tab: a missing `post` column
shows an error and nothing else happens; otherwise the non-missing
column values become the posts and the same analysis runs. -/
def runCsvFlow (store : Option PyStr) (pol : PyStr → ℚ)
    (tox : PyStr → Option ℚ) (df : Table) : Option PyStr × Outcome :=
  if "post".data ∈ df.header then
    if ((postColumn df).filter (fun c => decide (c ≠ Cell.na))).map encodeCell
        = [] then (store, .noPosts)
    else
      match analyzePosts pol tox
        (((postColumn df).filter (fun c => decide (c ≠ Cell.na))).map
          encodeCell) with
      | none => (store, .modelFailure)
      | some (rows, sc, tc) =>
        ((saveHistory store (rowsTable rows)).1, .analyzed rows sc tc)
  else (store, .missingPostColumn)

/-! ### Branch lemmas for the classification thresholds -/

lemma sentimentLabel_pos {p : ℚ} (h : p > 0.2) :
    sentimentLabel p = "Positive".data := by
  rw [sentimentLabel, if_pos h]

lemma sentimentLabel_neg {p : ℚ} (h : p < -0.2) :
    sentimentLabel p = "Negative".data := by
  rw [sentimentLabel, if_neg (by intro hc; linarith), if_pos h]

lemma sentimentLabel_neu {p : ℚ} (h1 : -0.2 ≤ p) (h2 : p ≤ 0.2) :
    sentimentLabel p = "Neutral".data := by
  rw [sentimentLabel, if_neg (not_lt.mpr h2), if_neg (not_lt.mpr h1)]

lemma bumpSent_pos {p : ℚ} (sc : SentCounts) (h : p > 0.2) :
    bumpSent sc p = { sc with positive := sc.positive + 1 } := by
  rw [bumpSent, if_pos h]

lemma bumpSent_neg {p : ℚ} (sc : SentCounts) (h : p < -0.2) :
    bumpSent sc p = { sc with negative := sc.negative + 1 } := by
  rw [bumpSent, if_neg (by intro hc; linarith), if_pos h]

lemma bumpSent_neu {p : ℚ} (sc : SentCounts) (h1 : -0.2 ≤ p) (h2 : p ≤ 0.2) :
    bumpSent sc p = { sc with neutral := sc.neutral + 1 } := by
  rw [bumpSent, if_neg (not_lt.mpr h2), if_neg (not_lt.mpr h1)]

lemma toxicityLabel_toxic {s : ℚ} (h : s > 0.5) :
    toxicityLabel s = "⚠️ Toxic (".data ++ format2 s ++ ")".data := by
  rw [toxicityLabel, if_pos h]

lemma toxicityLabel_safe {s : ℚ} (h : s ≤ 0.5) :
    toxicityLabel s = "✅ Safe (".data ++ format2 s ++ ")".data := by
  rw [toxicityLabel, if_neg (not_lt.mpr h)]

lemma bumpTox_toxic {s : ℚ} (tc : ToxCounts) (h : s > 0.5) :
    bumpTox tc s = { tc with toxic := tc.toxic + 1 } := by
  rw [bumpTox, if_pos h]

lemma bumpTox_safe {s : ℚ} (tc : ToxCounts) (h : s ≤ 0.5) :
    bumpTox tc s = { tc with safe := tc.safe + 1 } := by
  rw [bumpTox, if_neg (not_lt.mpr h)]

lemma bumpSent_total (sc : SentCounts) (p : ℚ) :
    (bumpSent sc p).positive + (bumpSent sc p).negative
      + (bumpSent sc p).neutral
      = sc.positive + sc.negative + sc.neutral + 1 := by
  rw [bumpSent]
  split_ifs <;> simp <;> omega

lemma bumpTox_total (tc : ToxCounts) (s : ℚ) :
    (bumpTox tc s).toxic + (bumpTox tc s).safe = tc.toxic + tc.safe + 1 := by
  rw [bumpTox]
  split_ifs <;> simp <;> omega

/-- Two digits after the decimal point, whatever the score. -/
lemma format2_two_decimals (q : ℚ) :
    ∃ ip d1 d2, format2 q = ip ++ '.' :: [d1, d2]
      ∧ d1.isDigit = true ∧ d2.isDigit = true := by
  refine ⟨(if (200 * q.num + (q.den : Int)).fdiv (2 * (q.den : Int)) < 0
      then ['-'] else [])
    ++ natToStr (((200 * q.num + (q.den : Int)).fdiv
        (2 * (q.den : Int))).natAbs / 100),
    digitChar (((200 * q.num + (q.den : Int)).fdiv
        (2 * (q.den : Int))).natAbs % 100 / 10),
    digitChar (((200 * q.num + (q.den : Int)).fdiv
        (2 * (q.den : Int))).natAbs % 100 % 10), rfl, ?_, ?_⟩
  · exact isDigit_digitChar (by omega)
  · exact isDigit_digitChar (by omega)

/-! ### Structure of the analysis loop -/

lemma analyzePosts_nil (pol : PyStr → ℚ) (tox : PyStr → Option ℚ) :
    analyzePosts pol tox [] = some ([], ⟨0, 0, 0⟩, ⟨0, 0⟩) := rfl

lemma analyzePosts_cons_none (pol : PyStr → ℚ) (tox : PyStr → Option ℚ)
    (p : PyStr) (ps : List PyStr) (h : tox p = none) :
    analyzePosts pol tox (p :: ps) = none := by
  rw [analyzePosts, h]

lemma analyzePosts_cons_some (pol : PyStr → ℚ) (tox : PyStr → Option ℚ)
    (p : PyStr) (ps : List PyStr) (s : ℚ) (h : tox p = some s) :
    analyzePosts pol tox (p :: ps)
      = match analyzePosts pol tox ps with
        | none => none
        | some (rows, sc, tc) =>
          some ((p, sentimentLabel (pol p), toxicityLabel s) :: rows,
            bumpSent sc (pol p), bumpTox tc s) := by
  rw [analyzePosts, h]

lemma analyzePosts_none_of_mem {pol : PyStr → ℚ} {tox : PyStr → Option ℚ}
    {posts : List PyStr} {p : PyStr} (hp : p ∈ posts) (hn : tox p = none) :
    analyzePosts pol tox posts = none := by
  induction posts with
  | nil => cases hp
  | cons q ps ih =>
    rcases List.mem_cons.mp hp with rfl | hp'
    · exact analyzePosts_cons_none pol tox p ps hn
    · cases htox : tox q with
      | none => exact analyzePosts_cons_none pol tox q ps htox
      | some s =>
        rw [analyzePosts_cons_some pol tox q ps s htox, ih hp']

lemma analyzePosts_some_spec {pol : PyStr → ℚ} {tox : PyStr → Option ℚ} :
    ∀ {posts : List PyStr} {rows : List Row} {sc : SentCounts}
      {tc : ToxCounts},
    analyzePosts pol tox posts = some (rows, sc, tc) →
    rows.map (fun r => r.1) = posts ∧
    rows.length = posts.length ∧
    sc.positive + sc.negative + sc.neutral = posts.length ∧
    tc.toxic + tc.safe = posts.length ∧
    ∀ p ∈ posts, (tox p).isSome = true := by
  intro posts
  induction posts with
  | nil =>
    intro rows sc tc h
    rw [analyzePosts_nil] at h
    have h' := Option.some.inj h
    obtain ⟨h1, h2, h3⟩ : ([] : List Row) = rows
        ∧ (⟨0, 0, 0⟩ : SentCounts) = sc ∧ (⟨0, 0⟩ : ToxCounts) = tc := by
      rw [Prod.ext_iff, Prod.ext_iff] at h'
      exact ⟨h'.1, h'.2.1, h'.2.2⟩
    subst h1
    subst h2
    subst h3
    refine ⟨rfl, rfl, rfl, rfl, ?_⟩
    intro p hp
    cases hp
  | cons q ps ih =>
    intro rows sc tc h
    cases htox : tox q with
    | none =>
      rw [analyzePosts_cons_none pol tox q ps htox] at h
      cases h
    | some s =>
      rw [analyzePosts_cons_some pol tox q ps s htox] at h
      cases hrec : analyzePosts pol tox ps with
      | none =>
        rw [hrec] at h
        cases h
      | some triple =>
        obtain ⟨rows', sc', tc'⟩ := triple
        rw [hrec] at h
        have h' := Option.some.inj h
        obtain ⟨h1, h2, h3⟩ :
            (q, sentimentLabel (pol q), toxicityLabel s) :: rows' = rows
            ∧ bumpSent sc' (pol q) = sc ∧ bumpTox tc' s = tc := by
          rw [Prod.ext_iff, Prod.ext_iff] at h'
          exact ⟨h'.1, h'.2.1, h'.2.2⟩
        subst h1
        subst h2
        subst h3
        obtain ⟨ihfst, ihlen, ihsc, ihtc, ihtox⟩ := ih hrec
        refine ⟨?_, ?_, ?_, ?_, ?_⟩
        · rw [List.map_cons, ihfst]
        · rw [List.length_cons, ihlen, List.length_cons]
        · rw [bumpSent_total, ihsc, List.length_cons]
        · rw [bumpTox_total, ihtc, List.length_cons]
        · intro p hp
          rcases List.mem_cons.mp hp with rfl | hp'
          · rw [htox]
            rfl
          · exact ihtox p hp'

/-! ### What free-text parsing does and does not drop -/

lemma dropWhile_head_false {p : Char → Bool} :
    ∀ {l : PyStr} {c : Char} {t : PyStr},
    l.dropWhile p = c :: t → p c = false := by
  intro l
  induction l with
  | nil => intro c t h; cases h
  | cons d r ih =>
    intro c t h
    rw [List.dropWhile_cons] at h
    by_cases hd : p d = true
    · rw [if_pos hd] at h
      exact ih h
    · rw [if_neg hd] at h
      have h1 : d = c := ((List.cons.injEq _ _ _ _).mp h).1
      subst h1
      exact Bool.not_eq_true _ ▸ hd

lemma pyStrip_head_false : ∀ {s : PyStr} {c : Char} {t : PyStr},
    pyStrip s = c :: t → isPySpace c = false := by
  intro s c t h
  have hpre : pyStrip s <+: s.dropWhile isPySpace :=
    List.rdropWhile_prefix isPySpace (s.dropWhile isPySpace)
  obtain ⟨u, hu⟩ := hpre
  rw [h, List.cons_append] at hu
  exact dropWhile_head_false hu.symm

lemma pyStrip_cons_ne_nil {c : Char} (hc : isPySpace c = false) (g : PyStr) :
    pyStrip (c :: g) ≠ [] := by
  intro h
  rw [pyStrip, List.dropWhile_cons, if_neg (by simp [hc])] at h
  rw [List.reverse_eq_nil_iff, List.dropWhile_eq_nil_iff] at h
  have hcm := h c (by simp)
  rw [hc] at hcm
  cases hcm

lemma splitNL_cons_ne_nl {c : Char} (hc : c ≠ '\n') (rest : PyStr) :
    ∃ g gs, splitNL rest = g :: gs ∧ splitNL (c :: rest) = (c :: g) :: gs := by
  rcases hs : splitNL rest with _ | ⟨g, gs⟩
  · exact absurd hs (splitNL_ne_nil rest)
  · refine ⟨g, gs, rfl, ?_⟩
    rw [splitNL, if_neg hc, hs]
    rfl

lemma parsePosts_head_nonblank : ∀ {input l : PyStr} {ls : List PyStr},
    parsePosts input = l :: ls → pyStrip l ≠ [] := by
  intro input l ls h
  rw [parsePosts] at h
  by_cases hstrip : pyStrip input = []
  · rw [if_pos hstrip] at h
    cases h
  · rw [if_neg hstrip] at h
    rcases hsp : pyStrip input with _ | ⟨c, t⟩
    · exact absurd hsp hstrip
    · have hc : isPySpace c = false := pyStrip_head_false hsp
      have hcnl : c ≠ '\n' := by
        intro he
        rw [he] at hc
        cases hc
      rw [hsp] at h
      obtain ⟨g, gs, _, hsplit⟩ := splitNL_cons_ne_nl hcnl t
      rw [hsplit] at h
      have h1 : c :: g = l := ((List.cons.injEq _ _ _ _).mp h).1
      rw [← h1]
      exact pyStrip_cons_ne_nil hc g

/-! ### The claims -/

/-- C1: for every polarity score `p`, the sentiment classification returns
Positive when `p > 0.2`, Negative when `p < -0.2`, and Neutral otherwise;
the boundary values `0.2` and `-0.2` map to Neutral (the inequalities are
strict). -/
theorem C1_sentiment_thresholds (p : ℚ) :
    (p > 0.2 → sentimentLabel p = "Positive".data) ∧
    (p < -0.2 → sentimentLabel p = "Negative".data) ∧
    (-0.2 ≤ p → p ≤ 0.2 → sentimentLabel p = "Neutral".data) ∧
    sentimentLabel 0.2 = "Neutral".data ∧
    sentimentLabel (-0.2) = "Neutral".data :=
  ⟨sentimentLabel_pos, sentimentLabel_neg,
   fun h1 h2 => sentimentLabel_neu h1 h2,
   sentimentLabel_neu (by norm_num) (by norm_num),
   sentimentLabel_neu (by norm_num) (by norm_num)⟩

theorem C1_witness :
    sentimentLabel (3/5) = "Positive".data ∧
    sentimentLabel (-(1/2)) = "Negative".data ∧
    sentimentLabel 0 = "Neutral".data :=
  ⟨(C1_sentiment_thresholds (3/5)).1 (by norm_num),
   (C1_sentiment_thresholds (-(1/2))).2.1 (by norm_num),
   (C1_sentiment_thresholds 0).2.2.1 (by norm_num) (by norm_num)⟩

/-- C2: for every toxicity score `s`, the post is labelled toxic exactly
when `s > 0.5` (strict) and safe when `s ≤ 0.5`, the matching count
bucket is incremented, and in both cases the label string embeds the
score rendered to two decimal places. -/
theorem C2_toxicity_threshold (s : ℚ) (tc : ToxCounts) :
    (s > 0.5 → toxicityLabel s = "⚠️ Toxic (".data ++ format2 s ++ ")".data
      ∧ bumpTox tc s = { tc with toxic := tc.toxic + 1 }) ∧
    (s ≤ 0.5 → toxicityLabel s = "✅ Safe (".data ++ format2 s ++ ")".data
      ∧ bumpTox tc s = { tc with safe := tc.safe + 1 }) ∧
    (∃ ip d1 d2, format2 s = ip ++ '.' :: [d1, d2]
      ∧ d1.isDigit = true ∧ d2.isDigit = true) :=
  ⟨fun h => ⟨toxicityLabel_toxic h, bumpTox_toxic tc h⟩,
   fun h => ⟨toxicityLabel_safe h, bumpTox_safe tc h⟩,
   format2_two_decimals s⟩

/-- `0.85` as a kernel-evaluable rational (score used by C2's witness). -/
def q085 : ℚ := ⟨17, 20, by decide, by decide⟩

/-- `0.5` as a kernel-evaluable rational. -/
def q05 : ℚ := ⟨1, 2, by decide, by decide⟩

lemma q085_eq : q085 = 17 / 20 := by
  rw [q085, Rat.mk'_eq_divInt, Rat.divInt_eq_div]
  norm_num

lemma q05_eq : q05 = 1 / 2 := by
  rw [q05, Rat.mk'_eq_divInt, Rat.divInt_eq_div]
  norm_num

lemma q085_gt : q085 > 0.5 := by
  rw [q085_eq]
  norm_num

lemma q05_le : q05 ≤ 0.5 := by
  rw [q05_eq]
  norm_num

theorem C2_witness :
    toxicityLabel q085 = "⚠️ Toxic (0.85)".data ∧
    toxicityLabel q05 = "✅ Safe (0.50)".data := by
  constructor
  · rw [((C2_toxicity_threshold q085 ⟨0, 0⟩).1 q085_gt).1]
    decide
  · rw [((C2_toxicity_threshold q05 ⟨0, 0⟩).2.1 q05_le).1]
    decide

/-- C3: for every existing history file and every batch, `save_history`
loads the existing table, appends the batch rows after it in order,
writes the combined table back, and returns it: the combined rows are
exactly the prior rows followed by the batch rows, with no loss. -/
theorem C3_save_appends (s : PyStr) (b : Table)
    (_hh : b.header = (loadHistory (some s)).header) :
    (saveHistory (some s) b).2.rows
      = (loadHistory (some s)).rows ++ b.rows ∧
    (saveHistory (some s) b).2.header = (loadHistory (some s)).header ∧
    (saveHistory (some s) b).1
      = some (encodeTable (saveHistory (some s) b).2) ∧
    (saveHistory (some s) b).2.rows.length
      = (loadHistory (some s)).rows.length + b.rows.length ∧
    (saveHistory (some s) b).2.rows.take (loadHistory (some s)).rows.length
      = (loadHistory (some s)).rows ∧
    (saveHistory (some s) b).2.rows.drop (loadHistory (some s)).rows.length
      = b.rows := by
  refine ⟨rfl, rfl, rfl, ?_, ?_, ?_⟩
  · exact List.length_append _ _
  · exact List.take_left _ _
  · exact List.drop_left _ _

theorem C3_witness :
    (saveHistory (some "Post,Sentiment,Toxicity\nhi,Positive,ok\n".data)
        (rowsTable [("yo".data, "Neutral".data, "safe".data)])).2.rows
      = (loadHistory
          (some "Post,Sentiment,Toxicity\nhi,Positive,ok\n".data)).rows
        ++ (rowsTable [("yo".data, "Neutral".data, "safe".data)]).rows :=
  (C3_save_appends "Post,Sentiment,Toxicity\nhi,Positive,ok\n".data
    (rowsTable [("yo".data, "Neutral".data, "safe".data)]) (by decide)).1

/-- C6: when no backing file exists, `load_history` returns an empty
table with exactly the three fixed columns `Post`, `Sentiment`,
`Toxicity` and no rows; when the file exists it reads the full persisted
table. -/
theorem C6_load_history :
    loadHistory none
      = ⟨["Post".data, "Sentiment".data, "Toxicity".data], []⟩ ∧
    (loadHistory none).rows.length = 0 ∧
    ∀ s, loadHistory (some s) = decodeTable s :=
  ⟨rfl, rfl, fun _ => rfl⟩

/-- C7: for every uploaded table lacking a column named exactly `post`,
the pipeline does not run: the outcome is only the user-visible error,
no posts are classified, and the history store is left unchanged. -/
theorem C7_missing_post_column (store : Option PyStr) (pol : PyStr → ℚ)
    (tox : PyStr → Option ℚ) (df : Table) (h : "post".data ∉ df.header) :
    runCsvFlow store pol tox df = (store, Outcome.missingPostColumn) := by
  rw [runCsvFlow, if_neg h]

theorem C7_witness :
    runCsvFlow none (fun _ => 0) (fun _ => none)
        ⟨["text".data], [[Cell.str "hi".data]]⟩
      = (none, Outcome.missingPostColumn) :=
  C7_missing_post_column none _ _ _ (by decide)

/-- C8: if the toxic-score extraction fails for any post of the batch
(classifier backend unavailable or no "toxic" label in its output), the
whole run fails — no fallback score is substituted, the outcome is the
fatal failure, nothing is persisted (the store is unchanged), and no
analyzed batch is produced; `save_history` runs only after the entire
batch has been classified. -/
theorem C8_failure_aborts (store : Option PyStr) (pol : PyStr → ℚ)
    (tox : PyStr → Option ℚ) (input : PyStr)
    (h : ∃ p ∈ parsePosts input, tox p = none) :
    runTextFlow store pol tox input = (store, Outcome.modelFailure) ∧
    (runTextFlow store pol tox input).1 = store ∧
    analyzePosts pol tox (parsePosts input) = none ∧
    ∀ rows sc tc,
      (runTextFlow store pol tox input).2 ≠ Outcome.analyzed rows sc tc := by
  obtain ⟨p, hp, hnone⟩ := h
  have hana : analyzePosts pol tox (parsePosts input) = none :=
    analyzePosts_none_of_mem hp hnone
  have hne : parsePosts input ≠ [] := by
    intro he
    rw [he] at hp
    cases hp
  have hrun : runTextFlow store pol tox input
      = (store, Outcome.modelFailure) := by
    rw [runTextFlow, if_neg hne, hana]
  refine ⟨hrun, by rw [hrun], hana, ?_⟩
  intro rows sc tc heq
  rw [hrun] at heq
  cases heq

theorem C8_witness :
    runTextFlow none (fun _ => 0) (fun _ => none) "a\nb".data
      = (none, Outcome.modelFailure) :=
  (C8_failure_aborts none _ _ _ ⟨"a".data, by decide, rfl⟩).1

/-- C5: the batch preserves input order (the posts of the result rows are
exactly the input posts, in order), and on the three-post scenario with
polarity scores `0.6, -0.5, 0.0` the labels are Positive, Negative,
Neutral in that order with `sentiment_counts = {1, 1, 1}`. -/
theorem C5_order_and_scenario (pol : PyStr → ℚ) (tox : PyStr → Option ℚ)
    (posts : List PyStr) (rows : List Row) (sc : SentCounts)
    (tc : ToxCounts)
    (h : analyzePosts pol tox posts = some (rows, sc, tc)) :
    rows.map (fun r => r.1) = posts ∧
    (posts = ["I love this!".data, "I hate you".data, "It is raining".data] →
      pol "I love this!".data = 3/5 → pol "I hate you".data = -(1/2) →
      pol "It is raining".data = 0 →
      rows.map (fun r => r.2.1)
        = ["Positive".data, "Negative".data, "Neutral".data] ∧
      sc = ⟨1, 1, 1⟩) := by
  refine ⟨(analyzePosts_some_spec h).1, ?_⟩
  intro hposts h1 h2 h3
  subst hposts
  have htoxall := (analyzePosts_some_spec h).2.2.2.2
  obtain ⟨s1, hs1⟩ := Option.isSome_iff_exists.mp
    (htoxall "I love this!".data (by simp))
  obtain ⟨s2, hs2⟩ := Option.isSome_iff_exists.mp
    (htoxall "I hate you".data (by simp))
  obtain ⟨s3, hs3⟩ := Option.isSome_iff_exists.mp
    (htoxall "It is raining".data (by simp))
  rw [analyzePosts_cons_some pol tox _ _ _ hs1,
    analyzePosts_cons_some pol tox _ _ _ hs2,
    analyzePosts_cons_some pol tox _ _ _ hs3, analyzePosts_nil] at h
  have h' := Option.some.inj h
  have hrows := congrArg (fun x => x.1) h'
  have hsc := congrArg (fun x => x.2.1) h'
  simp only at hrows hsc
  rw [← hrows, ← hsc, h1, h2, h3]
  constructor
  · rw [List.map_cons, List.map_cons, List.map_cons, List.map_nil]
    rw [sentimentLabel_pos (p := 3/5) (by norm_num),
      sentimentLabel_neg (p := -(1/2)) (by norm_num),
      sentimentLabel_neu (p := 0) (by norm_num) (by norm_num)]
  · rw [bumpSent_neu (p := 0) ⟨0, 0, 0⟩ (by norm_num) (by norm_num),
      bumpSent_neg (p := -(1/2)) _ (by norm_num),
      bumpSent_pos (p := 3/5) _ (by norm_num)]

/-- The concrete sentiment scorer of the witness scenario. -/
def polW : PyStr → ℚ := fun p =>
  if p = "I love this!".data then 3/5
  else if p = "I hate you".data then -(1/2)
  else 0

/-- The concrete toxic-score extraction of the witness scenario: always
succeeds with score `0`. -/
def toxW : PyStr → Option ℚ := fun _ => some 0

/-- The witness scenario's loop evaluates as expected. -/
lemma analyzeW :
    analyzePosts polW toxW
        ["I love this!".data, "I hate you".data, "It is raining".data]
      = some ([("I love this!".data, "Positive".data, toxicityLabel 0),
          ("I hate you".data, "Negative".data, toxicityLabel 0),
          ("It is raining".data, "Neutral".data, toxicityLabel 0)],
        ⟨1, 1, 1⟩, ⟨0, 3⟩) := by
  have e1 : polW "I love this!".data = 3/5 := rfl
  have e2 : polW "I hate you".data = -(1/2) := rfl
  have e3 : polW "It is raining".data = 0 := rfl
  rw [analyzePosts_cons_some polW toxW _ _ 0 rfl,
    analyzePosts_cons_some polW toxW _ _ 0 rfl,
    analyzePosts_cons_some polW toxW _ _ 0 rfl, analyzePosts_nil]
  show some (_, _, _) = _
  rw [e1, e2, e3]
  rw [sentimentLabel_pos (p := 3/5) (by norm_num),
    sentimentLabel_neg (p := -(1/2)) (by norm_num),
    sentimentLabel_neu (p := 0) (by norm_num) (by norm_num)]
  rw [bumpSent_neu (p := 0) ⟨0, 0, 0⟩ (by norm_num) (by norm_num),
    bumpSent_neg (p := -(1/2)) _ (by norm_num),
    bumpSent_pos (p := 3/5) _ (by norm_num)]
  rw [bumpTox_safe (s := 0) ⟨0, 0⟩ (by norm_num),
    bumpTox_safe (s := 0) _ (by norm_num),
    bumpTox_safe (s := 0) _ (by norm_num)]

theorem C5_witness :
    ([("I love this!".data, "Positive".data, toxicityLabel 0),
        ("I hate you".data, "Negative".data, toxicityLabel 0),
        ("It is raining".data, "Neutral".data, toxicityLabel 0)].map
          (fun r => r.2.1)
        = ["Positive".data, "Negative".data, "Neutral".data])
      ∧ (⟨1, 1, 1⟩ : SentCounts) = ⟨1, 1, 1⟩ :=
  (C5_order_and_scenario polW toxW _ _ _ _ analyzeW).2 rfl rfl rfl rfl

/-- C10: each processed post increments exactly one sentiment bucket and
exactly one toxicity bucket, so after a run the three sentiment counts
sum to the number of posts, the two toxicity counts sum to the same
number, and both equal the number of rows in the result batch. -/
theorem C10_counts_partition (pol : PyStr → ℚ) (tox : PyStr → Option ℚ)
    (posts : List PyStr) (rows : List Row) (sc : SentCounts)
    (tc : ToxCounts)
    (h : analyzePosts pol tox posts = some (rows, sc, tc)) :
    sc.positive + sc.negative + sc.neutral = posts.length ∧
    tc.toxic + tc.safe = posts.length ∧
    rows.length = posts.length :=
  ⟨(analyzePosts_some_spec h).2.2.1, (analyzePosts_some_spec h).2.2.2.1,
   (analyzePosts_some_spec h).2.1⟩

theorem C10_witness :
    ((⟨1, 1, 1⟩ : SentCounts).positive + (⟨1, 1, 1⟩ : SentCounts).negative
        + (⟨1, 1, 1⟩ : SentCounts).neutral
      = (["I love this!".data, "I hate you".data,
          "It is raining".data] : List PyStr).length) ∧
    ((⟨0, 3⟩ : ToxCounts).toxic + (⟨0, 3⟩ : ToxCounts).safe
      = (["I love this!".data, "I hate you".data,
          "It is raining".data] : List PyStr).length) ∧
    ([("I love this!".data, "Positive".data, toxicityLabel 0),
        ("I hate you".data, "Negative".data, toxicityLabel 0),
        ("It is raining".data, "Neutral".data, toxicityLabel 0)].length
      = (["I love this!".data, "I hate you".data,
          "It is raining".data] : List PyStr).length) :=
  C10_counts_partition polW toxW _ _ _ _ analyzeW

/-- C4 counterexample: on the input `"a\n\nb"` the interior blank line is
kept: the post sequence is `["a", "", "b"]`, so an empty-after-trim
string is among the posts handed to the classifier, contradicting the
claim that blank lines are dropped before classification. -/
theorem C4_counterexample :
    parsePosts "a\n\nb".data = ["a".data, [], "b".data] ∧
    [] ∈ parsePosts "a\n\nb".data ∧
    pyStrip ([] : PyStr) = [] ∧
    ¬ (∀ p ∈ parsePosts "a\n\nb".data, pyStrip p ≠ []) := by
  refine ⟨by decide, by decide, rfl, by decide⟩

/-- C4 (amended): the raw input is stripped of leading and trailing
whitespace as a whole and then split on newlines: an all-whitespace
input yields no posts and the first post is never blank after trimming,
but interior blank or whitespace-only lines are kept and are classified
and recorded. -/
theorem C4_strip_then_split (input : PyStr) :
    (pyStrip input = [] → parsePosts input = []) ∧
    (pyStrip input ≠ [] → parsePosts input = splitNL (pyStrip input)) ∧
    (∀ l ls, parsePosts input = l :: ls → pyStrip l ≠ []) := by
  refine ⟨fun h => by rw [parsePosts, if_pos h],
    fun h => by rw [parsePosts, if_neg h], ?_⟩
  intro l ls h
  exact parsePosts_head_nonblank h

theorem C4_witness :
    parsePosts "  ".data = [] ∧
    parsePosts " a\n\nb ".data = splitNL (pyStrip " a\n\nb ".data) ∧
    pyStrip "a".data ≠ [] :=
  ⟨(C4_strip_then_split "  ".data).1 (by decide),
   (C4_strip_then_split " a\n\nb ".data).2.1 (by decide),
   (C4_strip_then_split "a".data).2.2 "a".data [] (by decide)⟩

/-- C9: for every persisted history table (three named columns, width-3
rows), exporting the full history with `to_csv` and re-loading the
exported file yields the identical row sequence: no reordering, no row
loss, no data change. -/
theorem C9_export_roundtrip (s : PyStr)
    (hs : HistoryShaped (loadHistory (some s))) :
    decodeTable (encodeTable (loadHistory (some s)))
      = loadHistory (some s) :=
  decode_encode_decode hs

theorem C9_witness :
    HistoryShaped (loadHistory
        (some "Post,Sentiment,Toxicity\nhello,Positive,ok\n".data)) ∧
    decodeTable (encodeTable (loadHistory
        (some "Post,Sentiment,Toxicity\nhello,Positive,ok\n".data)))
      = loadHistory (some "Post,Sentiment,Toxicity\nhello,Positive,ok\n".data) :=
  ⟨by decide, C9_export_roundtrip _ (by decide)⟩
